import Mathlib

/-!
Shallow embedding of the minitorch tensor-data indexing layer
(src/minitorch/tensor_data.py) and of the scalar autodiff function protocol
(src/minitorch/scalar_functions.py), together with theorems settling the
specification claims about them.

Conventions of the embedding:
* Python ints are unbounded, so they are modelled as Lean Int; Python `%` and
  `//` are floor-mod and floor-div, i.e. Int.fmod and Int.fdiv.
* Functions that can raise are modelled in the Except monad over a PyError
  type distinguishing the Python exception classes that the source raises.
* numpy int arrays are lists of Int; the one place where a 0-dimensional
  array arises (array(i) for a bare int in TensorData.index) is modelled by
  the NpArr type below, since len() of a 0-dimensional array raises TypeError.
* In-place writes to an out-parameter buffer are modelled by returning the
  new buffer contents.
-/

namespace Minitorch

/-- Python exception classes raised by the embedded code. IndexingError is the
repository's own subclass of RuntimeError; the others are builtins. -/
inductive PyError where
  | indexingError (msg : String)
  | valueError (msg : String)
  | typeError (msg : String)
  | assertionError (msg : String)
deriving Repr, DecidableEq

/-- A numpy integer array as it is passed to index_to_position: either the
0-dimensional array produced by array(i) for a bare int, or an ordinary
1-dimensional array of coordinates. -/
inductive NpArr where
  | scalar (v : Int)
  | vec (l : List Int)
deriving Repr, DecidableEq

/-- Dot product of two equally long integer lists, as computed by
sum(index * stride for index, stride in zip(index, strides)). -/
def sumZip (a b : List Int) : Int := (List.zipWith (fun x y => x * y) a b).sum

/-- Embeds index_to_position (tensor_data.py lines 35-53): length check, then
the dot product of index and strides. Calling it on a 0-dimensional array
fails at len(index) with a TypeError. -/
def index_to_position (index : NpArr) (strides : List Int) : Except PyError Int :=
  match index with
  | .scalar _ => .error (.typeError "len() of unsized object")
  | .vec idx =>
    if idx.length ≠ strides.length then
      .error (.indexingError s!"Index {idx} must have same length as strides {strides}")
    else
      .ok (sumZip idx strides)

/-- Loop body of to_index, processing the dimensions of the shape from last to
first; the argument list here is the reversed shape. At each dimension the
digit is ordinal mod shape[i] and the ordinal becomes ordinal // shape[i]. -/
def toIndexRev (ordinal : Int) : List Int → List Int
  | [] => []
  | s :: rest => ordinal.fmod s :: toIndexRev (ordinal.fdiv s) rest

/-- Embeds to_index (tensor_data.py lines 56-75). The loop runs over
range(len(shape)-1, -1, -1), writing out_index[i] = ordinal % shape[i] and then
ordinal //= shape[i]; the filled out_index buffer is returned (at every call
site out_index has the same length as shape). -/
def to_index (ordinal : Int) (shape : List Int) : List Int :=
  (toIndexRev ordinal shape.reverse).reverse

/-- Loop body of strides_from_shape: layout starts as [1] with offset 1 and for
each s of the reversed shape appends s * offset to layout while updating the
offset to s * offset. -/
def stridesLoop (offset : Int) (layout : List Int) : List Int → List Int
  | [] => layout
  | s :: rest => stridesLoop (s * offset) (layout ++ [s * offset]) rest

/-- Embeds strides_from_shape (tensor_data.py lines 239-246): build the layout
list right-to-left, drop its last entry and reverse. -/
def strides_from_shape (shape : List Int) : List Int :=
  ((stridesLoop 1 [1] shape.reverse).dropLast).reverse

/-- Message of the IndexingError raised by shape_broadcast; its Python
f-string interpolates the (already padded) shape variables. -/
def cannotBroadcastMsg (shape1 shape2 : List Int) : String :=
  s!"Cannot broadcast shapes {shape1} and {shape2}"

/-- Loop of shape_broadcast over the zipped padded shapes: the first aligned
pair that is unequal with neither side 1 raises IndexingError, otherwise the
per-dimension max is collected. The first two arguments are the full padded
shapes, used only in the error message. -/
def broadcastLoop (shape1 shape2 : List Int) : List Int → List Int → Except PyError (List Int)
  | dim1 :: r1, dim2 :: r2 =>
    if dim1 ≠ dim2 ∧ ¬(dim1 = 1 ∨ dim2 = 1) then
      .error (.indexingError (cannotBroadcastMsg shape1 shape2))
    else
      (broadcastLoop shape1 shape2 r1 r2).map (fun rest => max dim1 dim2 :: rest)
  | _, _ => .ok []

/-- Embeds shape_broadcast (tensor_data.py lines 181-217): pad the shorter
shape on the left with 1s (rebinding the python variables shape1/shape2, which
is why the error message shows the padded shapes), then run the zip loop. -/
def shape_broadcast (shape1 shape2 : List Int) : Except PyError (List Int) :=
  let s1 := if shape1.length < shape2.length then
    List.replicate (shape2.length - shape1.length) 1 ++ shape1 else shape1
  let s2 := if shape2.length < shape1.length then
    List.replicate (shape1.length - shape2.length) 1 ++ shape2 else shape2
  broadcastLoop s1 s2 s1 s2

/-- Message of the ValueError raised by broadcast_index when the padded shape
is not broadcast-compatible with big_shape. -/
def notCompatibleMsg (big_shape shape : List Int) : String :=
  s!"Shapes {big_shape} and {shape} are not broadcast-compatible."

/-- Embeds broadcast_index (tensor_data.py lines 127-179), the active
definition, ignoring its debug print statements. The write loop
for dim in range(len(shape)): out_index[dim] = ... is modelled by rebuilding
the written prefix of out_index and keeping the untouched tail; the numpy
buffer accesses big_index[big_dim] assume big_index has big_shape's length,
which the theorems below take as hypotheses. -/
def broadcast_index (big_index big_shape shape out_index : List Int) :
    Except PyError (List Int) :=
  if shape.length = 0 then
    .ok out_index
  else if big_shape.length < shape.length then
    .error (.valueError "big_shape must have at least as many dimensions as shape")
  else
    let pad_amount := big_shape.length - shape.length
    let padded_shape := List.replicate pad_amount 1 ++ shape
    if ∀ dim < big_shape.length,
        ¬(padded_shape.getD dim 0 ≠ 1 ∧ padded_shape.getD dim 0 ≠ big_shape.getD dim 0) then
      .ok ((List.range shape.length).map (fun dim =>
            if padded_shape.getD (dim + pad_amount) 0 > 1 then
              big_index.getD (dim + pad_amount) 0
            else 0)
          ++ out_index.drop shape.length)
    else
      .error (.valueError (notCompatibleMsg big_shape shape))

/-- TensorData's persistent state: the flat float64 storage buffer, the shape
tuple and the strides tuple (tensor_data.py lines 249-281). -/
structure TensorData where
  _storage : List Float
  shape : List Int
  strides : List Int

/-- Derived size field, set by the constructor to prod(shape). -/
def TensorData.size (td : TensorData) : Int := td.shape.prod

/-- Derived dims field, set by the constructor to len(strides). -/
def TensorData.dims (td : TensorData) : Nat := td.strides.length

/-- Embeds the TensorData constructor checks (tensor_data.py lines 257-281):
strides and shape must have the same length (IndexingError) and the storage
length must equal the product of the shape (assert). -/
def TensorData.make (storage : List Float) (shape strides : List Int) :
    Except PyError TensorData :=
  if strides.length ≠ shape.length then
    .error (.indexingError s!"Len of strides {strides} must match {shape}.")
  else if (storage.length : Int) ≠ shape.prod then
    .error (.assertionError "len of storage must equal size")
  else
    .ok ⟨storage, shape, strides⟩

/-- The argument of TensorData.index: a bare Python int or a coordinate tuple. -/
inductive PyIndex where
  | int (i : Int)
  | tuple (l : List Int)
deriving Repr, DecidableEq

/-- Models numpy array() applied to the raw index argument: a bare int becomes
a 0-dimensional array, a tuple becomes a 1-dimensional array. -/
def npArray : PyIndex → NpArr
  | .int i => .scalar i
  | .tuple l => .vec l

/-- The aindex variable of TensorData.index: array([index]) for a bare int,
array(index) for a tuple. -/
def aindexOf : PyIndex → List Int
  | .int i => [i]
  | .tuple l => l

/-- Bounds loop of TensorData.index over enumerate(aindex), reading
self.shape[i]: first an index at or above the shape entry raises, then a
negative index raises. The first two arguments are the full aindex and shape,
used in the error messages. -/
def indexBoundsCheck (aindex shape : List Int) : List (Int × Int) → Except PyError Unit
  | [] => .ok ()
  | (ind, s) :: rest =>
    if ind ≥ s then .error (.indexingError s!"Index {aindex} out of range {shape}.")
    else if ind < 0 then .error (.indexingError s!"Negative indexing for {aindex} not supported.")
    else indexBoundsCheck aindex shape rest

/-- Embeds TensorData.index (tensor_data.py lines 307-328). The source also
computes a local variable substituting the shape (1,) when the tensor is
0-dimensional and the index is non-empty, but that local is never used: the
dimensionality check and the bounds loop both read self.shape. The final call
passes array(index) - the raw argument, not aindex - to index_to_position. -/
def TensorData.index (td : TensorData) (index : PyIndex) : Except PyError Int :=
  let aindex := aindexOf index
  let tshape := td.shape
  if aindex.length ≠ tshape.length then
    .error (.indexingError s!"Index {aindex} must be size of {tshape}.")
  else
    match indexBoundsCheck aindex tshape (aindex.zip tshape) with
    | .error e => .error e
    | .ok _ => index_to_position (npArray index) td.strides

/-- Reading storage[pos] for an ndarray buffer. Numpy raises IndexError when
the position is out of range; the negative-position wraparound of numpy is not
modelled, all claims only read in-range non-negative positions. -/
def storageRead (storage : List Float) (pos : Int) : Except PyError Float :=
  if 0 ≤ pos ∧ pos.toNat < storage.length then .ok (storage.getD pos.toNat 0.0)
  else .error (.indexingError "storage position out of range")

/-- Embeds TensorData.get (tensor_data.py lines 341-343). -/
def TensorData.get (td : TensorData) (key : List Int) : Except PyError Float :=
  (td.index (.tuple key)).bind (fun pos => storageRead td._storage pos)

/-- Embeds TensorData.set (tensor_data.py lines 345-346); the in-place
storage write is modelled by returning the TensorData with updated buffer. -/
def TensorData.set (td : TensorData) (key : List Int) (val : Float) :
    Except PyError TensorData :=
  (td.index (.tuple key)).bind (fun pos =>
    if 0 ≤ pos ∧ pos.toNat < td._storage.length then
      .ok { td with _storage := td._storage.set pos.toNat val }
    else .error (.indexingError "storage position out of range"))

/-- Embeds TensorData.indices (tensor_data.py lines 330-335): the coordinates
to_index(i, shape) for i in range(self.size), in order. -/
def TensorData.indices (td : TensorData) : List (List Int) :=
  (List.range td.size.toNat).map (fun (i : Nat) => to_index (i : Int) td.shape)

/-- Ascending insertion into a sorted list, helper for sortAsc. -/
def insertAsc (x : Nat) : List Nat → List Nat
  | [] => [x]
  | y :: ys => if x ≤ y then x :: y :: ys else y :: insertAsc x ys

/-- Models Python's sorted() on a list of naturals (insertion sort). -/
def sortAsc : List Nat → List Nat
  | [] => []
  | x :: xs => insertAsc x (sortAsc xs)

/-- Embeds TensorData.permute (tensor_data.py lines 352-377): assert that
sorted(order) == range(dims), short-circuit on the identity order, otherwise
construct a new TensorData over the same storage with shape and strides
reordered through order. -/
def TensorData.permute (td : TensorData) (order : List Nat) : Except PyError TensorData :=
  let tshape := td.shape
  if sortAsc order = List.range td.shape.length then
    if order = List.range td.shape.length then .ok td
    else
      TensorData.make td._storage (order.map (fun i => td.shape.getD i 0))
        (order.map (fun i => td.strides.getD i 0))
  else
    .error (.assertionError
      s!"Must give a position to each dimension. Shape: {tshape} Order: {order}")

/-- A Python numeric value as passed around by ScalarFunction.apply: either an
int or a float. -/
inductive PyVal where
  | int (n : Int)
  | float (x : Float)

/-- isinstance(c, float) for a numeric value. -/
def PyVal.isFloat : PyVal → Bool
  | .float _ => true
  | .int _ => false

/-- Python + on numbers: int + int stays int, any float operand makes the
result float. -/
def pyAdd : PyVal → PyVal → PyVal
  | .int m, .int n => .int (m + n)
  | .int m, .float y => .float (Float.ofInt m + y)
  | .float x, .int n => .float (x + Float.ofInt n)
  | .float x, .float y => .float (x + y)

/-- float() applied to a numeric value. -/
def promoteToFloat : PyVal → PyVal
  | .int n => .float (Float.ofInt n)
  | .float x => .float x

/-- Embeds Context (autodiff.py): the no_grad flag and the values saved by
save_for_backward. Only its construction Context(False) matters to the claims
settled here. -/
structure Context where
  no_grad : Bool
  saved_values : List Float

/-- Modelled from the spec: the Scalar class (scalar.py is not under src/)
wraps a numeric payload plus an optional History; per section 4.3 apply
promotes bare numbers to leaf-wrapped values, so the promoting constructor
converts the payload with float(). The history holds the context and the
input operands; the function-identity field of ScalarHistory plays no role in
any claim and is omitted. -/
inductive Scalar where
  | mk (data : PyVal) (history : Option (Context × List Scalar))

/-- Payload of a Scalar. -/
def Scalar.data : Scalar → PyVal
  | .mk d _ => d

/-- Modelled from the spec: promotion of a bare number to a leaf Scalar. -/
def Scalar.ofRaw (v : PyVal) : Scalar := .mk (promoteToFloat v) none

/-- An argument of ScalarFunction.apply: a Scalar or a bare number. -/
inductive ScalarLike where
  | scalar (s : Scalar)
  | raw (v : PyVal)

/-- The raw_vals list built by apply (scalar_functions.py lines 53-61): a
Scalar contributes its data, a bare value is appended as itself, unpromoted. -/
def rawVals (vals : List ScalarLike) : List PyVal :=
  vals.map (fun v => match v with
    | .scalar s => s.data
    | .raw x => x)

/-- The scalars list built by apply: a Scalar is kept, a bare value is wrapped
into a new leaf Scalar. -/
def promotedScalars (vals : List ScalarLike) : List Scalar :=
  vals.map (fun v => match v with
    | .scalar s => s
    | .raw x => Scalar.ofRaw x)

/-- Embeds ScalarFunction.apply (scalar_functions.py lines 41-72),
parameterized by the forward computation of the concrete function; forward
returns none when called with the wrong number of arguments (Python would
raise a TypeError). The assert isinstance(c, float) is the AssertionError
case. -/
def ScalarFunction.apply (forward : Context → List PyVal → Option PyVal)
    (vals : List ScalarLike) : Except PyError Scalar :=
  let raw_vals := rawVals vals
  let scalars := promotedScalars vals
  let ctx : Context := ⟨false, []⟩
  match forward ctx raw_vals with
  | none => .error (.typeError "forward() takes a fixed number of positional arguments")
  | some c =>
    if c.isFloat then .ok (.mk c (some (ctx, scalars)))
    else .error (.assertionError "Expected return type float")

/-- Embeds Add.forward (scalar_functions.py lines 79-82): a + b. -/
def Add.forward (ctx : Context) (a b : PyVal) : PyVal := pyAdd a b

/-- Add.forward as a function on the argument list, for apply. -/
def Add.forwardN (ctx : Context) : List PyVal → Option PyVal
  | [a, b] => some (Add.forward ctx a b)
  | _ => none

/-- Add.apply, i.e. ScalarFunction.apply with Add's forward. -/
def Add.apply (vals : List ScalarLike) : Except PyError Scalar :=
  ScalarFunction.apply Add.forwardN vals

/-- Embeds LT.backward (scalar_functions.py lines 209-212): always (0.0, 0.0). -/
def LT.backward (ctx : Context) (d_output : Float) : Float × Float := (0.0, 0.0)

/-- Embeds GT.backward (scalar_functions.py lines 223-226): always (0.0, 0.0). -/
def GT.backward (ctx : Context) (d_output : Float) : Float × Float := (0.0, 0.0)

/-- Embeds EQ.backward (scalar_functions.py lines 237-240): always (0.0, 0.0). -/
def EQ.backward (ctx : Context) (d_output : Float) : Float × Float := (0.0, 0.0)

/-! Definitions written from the words of the specification, used to compare
the source functions against the specified behaviour. -/

/-- The reversed list of contiguous strides of a reversed shape: the last
dimension has stride 1 and each earlier dimension multiplies in the sizes to
its right. Stated on reversed lists so that it is structural. -/
def revWeights : List Int → List Int
  | [] => []
  | s :: rest => 1 :: (revWeights rest).map (fun t => s * t)

/-- Spec wording for shape_broadcast: right-align the two shapes by padding
the shorter on the left with dimension-size 1. -/
def padLeft (a b : List Int) : List Int :=
  if a.length < b.length then List.replicate (b.length - a.length) 1 ++ a else a

/-- Spec wording for broadcast compatibility: after right-alignment every
aligned pair of dimensions is equal or has a 1 on either side. -/
def broadcastCompatible (s1 s2 : List Int) : Prop :=
  ∀ p ∈ (padLeft s1 s2).zip (padLeft s2 s1), p.1 = p.2 ∨ p.1 = 1 ∨ p.2 = 1

instance (s1 s2 : List Int) : Decidable (broadcastCompatible s1 s2) :=
  List.decidableBAll _ _

/-- The left-padded smaller shape used by broadcast_index. -/
def paddedShape (big_shape shape : List Int) : List Int :=
  List.replicate (big_shape.length - shape.length) 1 ++ shape

end Minitorch

namespace Minitorch

/-! Theorems. First the list-level helper lemmas, then one theorem (plus
witness or counterexample where required) per claim. -/

theorem sumZip_nil_left (b : List Int) : sumZip [] b = 0 := rfl

theorem sumZip_cons (x y : Int) (a b : List Int) :
    sumZip (x :: a) (y :: b) = x * y + sumZip a b := by
  simp [sumZip]

theorem sumZip_concat : ∀ (a b : List Int), a.length = b.length →
    ∀ x y : Int, sumZip (a ++ [x]) (b ++ [y]) = sumZip a b + x * y
  | [], [], _, x, y => by simp [sumZip]
  | a :: as, b :: bs, h, x, y => by
    have h' : as.length = bs.length := by simpa using h
    simp only [List.cons_append, sumZip_cons, sumZip_concat as bs h' x y]
    ring
  | [], _ :: _, h, _, _ => by simp at h
  | _ :: _, [], h, _, _ => by simp at h

theorem sumZip_reverse : ∀ (a b : List Int), a.length = b.length →
    sumZip a.reverse b.reverse = sumZip a b
  | [], [], _ => rfl
  | x :: as, y :: bs, h => by
    have h' : as.length = bs.length := by simpa using h
    have hlen : as.reverse.length = bs.reverse.length := by simpa using h'
    simp only [List.reverse_cons, sumZip_cons,
      sumZip_concat as.reverse bs.reverse hlen x y, sumZip_reverse as bs h']
    ring
  | [], _ :: _, h => by simp at h
  | _ :: _, [], h => by simp at h

theorem sumZip_map_right (s : Int) : ∀ (a b : List Int),
    sumZip a (b.map (fun t => s * t)) = s * sumZip a b
  | [], _ => by simp [sumZip]
  | _ :: _, [] => by simp [sumZip]
  | x :: as, y :: bs => by
    simp only [List.map_cons, sumZip_cons, sumZip_map_right s as bs]
    ring

/-- C7: for every context and every incoming gradient, the backward of each of
the comparison functions LT, GT and EQ returns the pair (0.0, 0.0): zero
gradient for both inputs, regardless of the operand values (which could only
reach backward through the context, quantified here) and of d_output. -/
theorem comparison_backward_zero (ctx : Context) (d_output : Float) :
    LT.backward ctx d_output = (0.0, 0.0)
    ∧ GT.backward ctx d_output = (0.0, 0.0)
    ∧ EQ.backward ctx d_output = (0.0, 0.0) :=
  ⟨rfl, rfl, rfl⟩

/-- C9: ScalarFunction.apply passes the raw unpromoted value of a bare
argument to forward (first conjunct: raw_vals keeps bare values as given;
second conjunct: the promoted leaf Scalar's data is the float-promoted value,
so the two differ on ints); consequently Add.apply on the bare Python ints 1
and 2 hits the isinstance(c, float) assert and fails with AssertionError,
while bare float arguments succeed. -/
theorem apply_raw_unpromoted_assert :
    (∀ xs : List PyVal, rawVals (xs.map ScalarLike.raw) = xs)
    ∧ (∀ v : PyVal, rawVals [.raw v] = [v]
        ∧ (promotedScalars [.raw v]).map Scalar.data = [promoteToFloat v])
    ∧ Add.apply [.raw (.int 1), .raw (.int 2)]
        = .error (.assertionError "Expected return type float")
    ∧ (∀ x y : Float, ∃ s : Scalar,
        Add.apply [.raw (.float x), .raw (.float y)] = .ok s
          ∧ s.data = .float (x + y)) := by
  refine ⟨?_, ?_, rfl, ?_⟩
  · intro xs
    induction xs with
    | nil => rfl
    | cons x xs ih => simpa [rawVals] using ih
  · intro v
    exact ⟨rfl, rfl⟩
  · intro x y
    exact ⟨_, rfl, rfl⟩

/-- C10: indexing a 0-dimensional TensorData with a bare integer always fails
with an IndexingError: the bare int is wrapped into the 1-element aindex, and
although the source computes a local shape variable (1,) for this case, the
dimensionality check compares aindex against the original 0-length self.shape
and therefore rejects every integer. -/
theorem index_int_zero_dim_error (td : TensorData) (i : Int) (h : td.shape = []) :
    ∃ msg, td.index (.int i) = .error (.indexingError msg) := by
  obtain ⟨st, sh, strd⟩ := td
  simp only at h
  subst h
  exact ⟨_, rfl⟩

theorem index_int_zero_dim_error_witness :
    (TensorData.mk [0.0] [] []).shape = []
    ∧ ∃ msg, (TensorData.mk [0.0] [] []).index (.int 3)
        = .error (.indexingError msg) :=
  ⟨rfl, index_int_zero_dim_error (TensorData.mk [0.0] [] []) 3 rfl⟩

/-- C8: on the 1-dimensional tensor with shape (2,) and strides (1,), indexing
with the bare integer 1 passes the dimensionality and bounds validation but
then crashes with a TypeError, because the final call hands array(index) - the
0-dimensional array of the raw int, not the 1-element aindex - to
index_to_position, whose len(index) fails. The second conjunct shows what the
claim (and the spec) expected: treating the int as the 1-tuple (1,) would
yield position 1 * strides[0] = 1. -/
theorem index_int_typeerror :
    (TensorData.mk [1.0, 2.0] [2] [1]).index (.int 1)
      = .error (.typeError "len() of unsized object")
    ∧ index_to_position (.vec [1]) [1] = .ok 1 :=
  ⟨rfl, rfl⟩

theorem padLeft_length (a b : List Int) :
    (padLeft a b).length = max a.length b.length := by
  unfold padLeft
  split <;> simp <;> omega

theorem padLeft_length_eq (a b : List Int) :
    (padLeft a b).length = (padLeft b a).length := by
  rw [padLeft_length, padLeft_length, Nat.max_comm]

theorem broadcastLoop_ok (full1 full2 : List Int) : ∀ l1 l2 : List Int,
    l1.length = l2.length →
    (∀ p ∈ l1.zip l2, p.1 = p.2 ∨ p.1 = 1 ∨ p.2 = 1) →
    broadcastLoop full1 full2 l1 l2 = .ok (List.zipWith max l1 l2)
  | [], [], _, _ => rfl
  | d1 :: r1, d2 :: r2, h, hc => by
    have hhead : d1 = d2 ∨ d1 = 1 ∨ d2 = 1 := hc (d1, d2) (by simp)
    have htail := broadcastLoop_ok full1 full2 r1 r2 (by simpa using h)
      (fun p hp => hc p (List.mem_cons_of_mem _ hp))
    have hcond : ¬(d1 ≠ d2 ∧ ¬(d1 = 1 ∨ d2 = 1)) := by tauto
    simp only [broadcastLoop]
    rw [if_neg hcond, htail]
    rfl
  | [], _ :: _, h, _ => by simp at h
  | _ :: _, [], h, _ => by simp at h

theorem broadcastLoop_err (full1 full2 : List Int) : ∀ l1 l2 : List Int,
    l1.length = l2.length →
    ¬(∀ p ∈ l1.zip l2, p.1 = p.2 ∨ p.1 = 1 ∨ p.2 = 1) →
    broadcastLoop full1 full2 l1 l2
      = .error (.indexingError (cannotBroadcastMsg full1 full2))
  | [], [], _, hc => absurd (by simp) hc
  | d1 :: r1, d2 :: r2, h, hc => by
    by_cases hhead : d1 = d2 ∨ d1 = 1 ∨ d2 = 1
    · have htail := broadcastLoop_err full1 full2 r1 r2 (by simpa using h)
        (fun hall => hc (by
          intro p hp
          rcases List.mem_cons.mp hp with hp | hp
          · subst hp; exact hhead
          · exact hall p hp))
      have hcond : ¬(d1 ≠ d2 ∧ ¬(d1 = 1 ∨ d2 = 1)) := by tauto
      simp only [broadcastLoop]
      rw [if_neg hcond, htail]
      rfl
    · have hcond : d1 ≠ d2 ∧ ¬(d1 = 1 ∨ d2 = 1) := by tauto
      simp only [broadcastLoop]
      rw [if_pos hcond]
  | [], _ :: _, h, _ => by simp at h
  | _ :: _, [], h, _ => by simp at h

theorem shape_broadcast_padLeft (s1 s2 : List Int) :
    shape_broadcast s1 s2
      = broadcastLoop (padLeft s1 s2) (padLeft s2 s1) (padLeft s1 s2) (padLeft s2 s1) :=
  rfl

/-- C3: shape_broadcast right-aligns the two shapes, pads the shorter on the
left with 1s, and returns the per-dimension max whenever every aligned pair is
equal or has a 1 on either side; otherwise it raises an IndexingError whose
message names the (padded) incompatible shapes. The three concrete examples of
the spec are included. -/
theorem shape_broadcast_spec :
    (∀ s1 s2 : List Int,
      (broadcastCompatible s1 s2 →
        shape_broadcast s1 s2
          = .ok (List.zipWith max (padLeft s1 s2) (padLeft s2 s1)))
      ∧ (¬ broadcastCompatible s1 s2 →
        shape_broadcast s1 s2
          = .error (.indexingError
              (cannotBroadcastMsg (padLeft s1 s2) (padLeft s2 s1)))))
    ∧ shape_broadcast [5, 3] [3] = .ok [5, 3]
    ∧ shape_broadcast [1, 3] [5, 1] = .ok [5, 3]
    ∧ (∃ msg, shape_broadcast [2, 3] [4, 3] = .error (.indexingError msg)) := by
  refine ⟨fun s1 s2 => ⟨fun hc => ?_, fun hc => ?_⟩, rfl, rfl, ⟨_, rfl⟩⟩
  · rw [shape_broadcast_padLeft]
    exact broadcastLoop_ok _ _ _ _ (padLeft_length_eq s1 s2) hc
  · rw [shape_broadcast_padLeft]
    exact broadcastLoop_err _ _ _ _ (padLeft_length_eq s1 s2) hc

theorem shape_broadcast_spec_witness :
    broadcastCompatible [1, 3] [5, 1]
    ∧ shape_broadcast [1, 3] [5, 1]
        = .ok (List.zipWith max (padLeft [1, 3] [5, 1]) (padLeft [5, 1] [1, 3])) :=
  ⟨by decide, (shape_broadcast_spec.1 [1, 3] [5, 1]).1 (by decide)⟩

/-- C4 (amended): when shape is broadcast-compatible with big_shape, a
0-dimensional shape leaves out_index unchanged, and otherwise out_index[d] is
set to big_index at the corresponding right-aligned dimension when the padded
size there is greater than 1, and to 0 otherwise. (The original claim said
"0 exactly when the padded size is 1"; the code tests padded > 1, which
differs on degenerate 0-size dimensions, see the counterexample.) -/
theorem broadcast_index_maps (big_index big_shape shape out_index : List Int)
    (hlen : shape.length ≤ big_shape.length)
    (hout : out_index.length = shape.length)
    (hcompat : ∀ dim < big_shape.length,
      (paddedShape big_shape shape).getD dim 0 = 1
      ∨ (paddedShape big_shape shape).getD dim 0 = big_shape.getD dim 0) :
    (shape = [] → broadcast_index big_index big_shape shape out_index = .ok out_index)
    ∧ ∃ out', broadcast_index big_index big_shape shape out_index = .ok out'
        ∧ out'.length = shape.length
        ∧ ∀ d < shape.length,
            out'.getD d 0 =
              if (paddedShape big_shape shape).getD
                    (d + (big_shape.length - shape.length)) 0 > 1
              then big_index.getD (d + (big_shape.length - shape.length)) 0
              else 0 := by
  constructor
  · intro h
    subst h
    rfl
  · by_cases h0 : shape.length = 0
    · have h0' : shape = [] := List.length_eq_zero.mp h0
      subst h0'
      exact ⟨out_index, rfl, by simpa using hout, by simp⟩
    · have hge : ¬(big_shape.length < shape.length) := not_lt.mpr hlen
      have hcond : ∀ dim < big_shape.length,
          ¬((List.replicate (big_shape.length - shape.length) 1 ++ shape).getD dim 0 ≠ 1
            ∧ (List.replicate (big_shape.length - shape.length) 1 ++ shape).getD dim 0
                ≠ big_shape.getD dim 0) := by
        intro dim hdim
        have := hcompat dim hdim
        unfold paddedShape at this
        tauto
      have heq : broadcast_index big_index big_shape shape out_index
          = .ok ((List.range shape.length).map (fun dim =>
              if (List.replicate (big_shape.length - shape.length) 1 ++ shape).getD
                  (dim + (big_shape.length - shape.length)) 0 > 1
              then big_index.getD (dim + (big_shape.length - shape.length)) 0
              else 0)
            ++ out_index.drop shape.length) := by
        simp only [broadcast_index]
        rw [if_neg h0, if_neg hge, if_pos hcond]
      have hdrop : out_index.drop shape.length = [] := by
        rw [← hout, List.drop_length]
      refine ⟨_, heq, ?_, ?_⟩
      · rw [hdrop, List.append_nil, List.length_map, List.length_range]
      · intro d hd
        rw [hdrop, List.append_nil]
        unfold paddedShape
        rw [List.getD_eq_getElem _ _ (by simpa using hd)]
        simp only [List.getElem_map, List.getElem_range]

theorem broadcast_index_maps_witness :
    ([4] : List Int).length ≤ ([3, 4] : List Int).length
    ∧ ([9] : List Int).length = ([4] : List Int).length
    ∧ (∀ dim < ([3, 4] : List Int).length,
        (paddedShape [3, 4] [4]).getD dim 0 = 1
        ∨ (paddedShape [3, 4] [4]).getD dim 0 = ([3, 4] : List Int).getD dim 0)
    ∧ (([4] : List Int) = [] → broadcast_index [1, 2] [3, 4] [4] [9] = .ok [9])
    ∧ ∃ out', broadcast_index [1, 2] [3, 4] [4] [9] = .ok out'
        ∧ out'.length = ([4] : List Int).length
        ∧ ∀ d < ([4] : List Int).length,
            out'.getD d 0 =
              if (paddedShape [3, 4] [4]).getD
                    (d + (([3, 4] : List Int).length - ([4] : List Int).length)) 0 > 1
              then ([1, 2] : List Int).getD
                    (d + (([3, 4] : List Int).length - ([4] : List Int).length)) 0
              else 0 := by
  refine ⟨by decide, by decide, by decide, ?_, ?_⟩
  · exact (broadcast_index_maps [1, 2] [3, 4] [4] [9] (by decide) (by decide) (by decide)).1
  · exact (broadcast_index_maps [1, 2] [3, 4] [4] [9] (by decide) (by decide) (by decide)).2

/-- C4 counterexample: big_shape = (0,), shape = (0,), big_index = (5,),
out_index = (7,). The shapes are broadcast-compatible (the padded size 0
equals big_shape's size 0) and the padded size is not 1, so the claim as
stated requires out_index[0] = big_index[0] = 5; the code's padded > 1 test
is false at 0, so it writes 0 instead. -/
theorem broadcast_index_claim_counterexample :
    (paddedShape [0] [0]).getD 0 0 = ([0] : List Int).getD 0 0
    ∧ (paddedShape [0] [0]).getD 0 0 ≠ 1
    ∧ broadcast_index [5] [0] [0] [7] = .ok [0]
    ∧ ([5] : List Int).getD 0 0 = 5
    ∧ ([0] : List Int).getD 0 0 ≠ 5 := by
  refine ⟨by decide, by decide, rfl, by decide, by decide⟩

/-- C5 (amended): on broadcast-incompatible shapes (some padded dimension
neither 1 nor equal to big_shape's) broadcast_index fails with a ValueError -
not an IndexingError - whose message names the offending shapes. -/
theorem broadcast_index_incompatible_valueerror
    (big_index big_shape shape out_index : List Int)
    (h0 : shape.length ≠ 0)
    (hlen : shape.length ≤ big_shape.length)
    (hbad : ∃ dim, dim < big_shape.length
      ∧ (paddedShape big_shape shape).getD dim 0 ≠ 1
      ∧ (paddedShape big_shape shape).getD dim 0 ≠ big_shape.getD dim 0) :
    broadcast_index big_index big_shape shape out_index
      = .error (.valueError (notCompatibleMsg big_shape shape)) := by
  have hge : ¬(big_shape.length < shape.length) := not_lt.mpr hlen
  have hcond : ¬(∀ dim < big_shape.length,
      ¬((List.replicate (big_shape.length - shape.length) 1 ++ shape).getD dim 0 ≠ 1
        ∧ (List.replicate (big_shape.length - shape.length) 1 ++ shape).getD dim 0
            ≠ big_shape.getD dim 0)) := by
    obtain ⟨dim, hdim, h1, h2⟩ := hbad
    unfold paddedShape at h1 h2
    intro hall
    exact hall dim hdim ⟨h1, h2⟩
  unfold broadcast_index
  rw [if_neg h0, if_neg hge, if_neg hcond]

theorem broadcast_index_incompatible_valueerror_witness :
    ([2] : List Int).length ≠ 0
    ∧ ([2] : List Int).length ≤ ([3] : List Int).length
    ∧ (∃ dim, dim < ([3] : List Int).length
        ∧ (paddedShape [3] [2]).getD dim 0 ≠ 1
        ∧ (paddedShape [3] [2]).getD dim 0 ≠ ([3] : List Int).getD dim 0)
    ∧ broadcast_index [0] [3] [2] [0]
        = .error (.valueError (notCompatibleMsg [3] [2])) :=
  ⟨by decide, by decide, by decide,
    broadcast_index_incompatible_valueerror [0] [3] [2] [0]
      (by decide) (by decide) (by decide)⟩

theorem toIndexRev_length (o : Int) : ∀ l : List Int, (toIndexRev o l).length = l.length
  | [] => rfl
  | s :: rest => by simp [toIndexRev, toIndexRev_length (o.fdiv s) rest]

theorem revWeights_length : ∀ l : List Int, (revWeights l).length = l.length
  | [] => rfl
  | s :: rest => by simp [revWeights, revWeights_length rest]

theorem stridesLoop_append : ∀ (l : List Int) (offset : Int) (x y : List Int),
    stridesLoop offset (x ++ y) l = x ++ stridesLoop offset y l
  | [], _, _, _ => rfl
  | s :: rest, offset, x, y => by
    simp only [stridesLoop]
    rw [List.append_assoc]
    exact stridesLoop_append rest (s * offset) x (y ++ [s * offset])

theorem stridesLoop_cons_nil (s offset : Int) (rest : List Int) :
    stridesLoop offset [] (s :: rest) = s * offset :: stridesLoop (s * offset) [] rest := by
  have h := stridesLoop_append rest (s * offset) [s * offset] []
  rw [List.append_nil] at h
  simp only [stridesLoop, List.nil_append]
  exact h

theorem stridesLoop_scale : ∀ (l : List Int) (c offset : Int),
    stridesLoop (c * offset) [] l = (stridesLoop offset [] l).map (fun t => c * t)
  | [], _, _ => rfl
  | s :: rest, c, offset => by
    rw [stridesLoop_cons_nil, stridesLoop_cons_nil, List.map_cons]
    have h1 : s * (c * offset) = c * (s * offset) := by ring
    rw [h1, stridesLoop_scale rest c (s * offset)]

theorem layout_dropLast : ∀ rl : List Int,
    ([1] ++ stridesLoop 1 [] rl).dropLast = revWeights rl
  | [] => rfl
  | s :: rest => by
    have IH := layout_dropLast rest
    rw [stridesLoop_cons_nil, stridesLoop_scale rest s 1]
    simp only [revWeights, ← IH]
    rw [List.map_dropLast]
    simp only [List.cons_append, List.nil_append, List.map_cons, List.dropLast_cons₂]

theorem strides_reverse (shape : List Int) :
    (strides_from_shape shape).reverse = revWeights shape.reverse := by
  unfold strides_from_shape
  rw [List.reverse_reverse]
  have h := stridesLoop_append shape.reverse 1 [1] []
  rw [List.append_nil] at h
  rw [h, layout_dropLast]

theorem strides_length (shape : List Int) :
    (strides_from_shape shape).length = shape.length := by
  have h := congrArg List.length (strides_reverse shape)
  simpa [revWeights_length] using h

theorem fmod_nonneg_pos (a s : Int) (hs : 0 < s) : 0 ≤ a.fmod s := by
  rw [Int.fmod_eq_emod _ (le_of_lt hs)]
  exact Int.emod_nonneg a (ne_of_gt hs)

theorem fmod_lt_pos (a s : Int) (hs : 0 < s) : a.fmod s < s := by
  rw [Int.fmod_eq_emod _ (le_of_lt hs)]
  exact Int.emod_lt_of_pos a hs

theorem fdiv_nonneg_pos (a s : Int) (hs : 0 < s) (ha : 0 ≤ a) : 0 ≤ a.fdiv s := by
  rw [Int.fdiv_eq_ediv _ (le_of_lt hs)]
  exact Int.ediv_nonneg ha (le_of_lt hs)

theorem fdiv_lt_of_lt_mul (a s m : Int) (hs : 0 < s) (h : a < s * m) : a.fdiv s < m := by
  rw [Int.fdiv_eq_ediv _ (le_of_lt hs)]
  exact (Int.ediv_lt_iff_lt_mul hs).mpr (by linarith)

theorem dot_toIndexRev : ∀ l : List Int, (∀ s ∈ l, 0 < s) → ∀ o : Int,
    0 ≤ o → o < l.prod → sumZip (toIndexRev o l) (revWeights l) = o
  | [], _, o, h0, h1 => by
    simp only [List.prod_nil] at h1
    have ho : o = 0 := by omega
    simp [toIndexRev, revWeights, sumZip, ho]
  | s :: rest, hpos, o, h0, h1 => by
    have hs : 0 < s := hpos s (by simp)
    have hrest : ∀ t ∈ rest, 0 < t := fun t ht => hpos t (by simp [ht])
    have hdiv0 : 0 ≤ o.fdiv s := fdiv_nonneg_pos o s hs h0
    have hdivlt : o.fdiv s < rest.prod := by
      apply fdiv_lt_of_lt_mul o s rest.prod hs
      rwa [List.prod_cons] at h1
    simp only [toIndexRev, revWeights, sumZip_cons]
    rw [sumZip_map_right, dot_toIndexRev rest hrest (o.fdiv s) hdiv0 hdivlt]
    have h := Int.fdiv_add_fmod o s
    linarith

theorem toIndexRev_bounds : ∀ l : List Int, (∀ s ∈ l, 0 < s) → ∀ o : Int,
    List.Forall₂ (fun d s => 0 ≤ d ∧ d < s) (toIndexRev o l) l
  | [], _, _ => List.Forall₂.nil
  | s :: rest, hpos, o => by
    have hs : 0 < s := hpos s (by simp)
    exact List.Forall₂.cons ⟨fmod_nonneg_pos o s hs, fmod_lt_pos o s hs⟩
      (toIndexRev_bounds rest (fun t ht => hpos t (by simp [ht])) (o.fdiv s))

theorem toIndexRev_rightInv : ∀ l d : List Int, (∀ s ∈ l, 0 < s) →
    List.Forall₂ (fun x s => 0 ≤ x ∧ x < s) d l →
    toIndexRev (sumZip d (revWeights l)) l = d
    ∧ 0 ≤ sumZip d (revWeights l)
    ∧ sumZip d (revWeights l) < l.prod
  | [], [], _, _ => ⟨rfl, le_refl 0, by simp [sumZip]⟩
  | [], _ :: _, _, hf => by cases hf
  | _ :: _, [], _, hf => by cases hf
  | s :: rest, x :: drest, hpos, hf => by
    have hs : 0 < s := hpos s (by simp)
    have hrest : ∀ t ∈ rest, 0 < t := fun t ht => hpos t (by simp [ht])
    obtain hx : (0 ≤ x ∧ x < s) := by cases hf with | cons h _ => exact h
    obtain hf' : List.Forall₂ (fun x s => 0 ≤ x ∧ x < s) drest rest := by
      cases hf with | cons _ h => exact h
    obtain ⟨IH1, IH2, IH3⟩ := toIndexRev_rightInv rest drest hrest hf'
    have hprod : 0 < rest.prod := List.prod_pos hrest
    have hv : sumZip (x :: drest) (revWeights (s :: rest))
        = x + s * sumZip drest (revWeights rest) := by
      simp only [revWeights, sumZip_cons, sumZip_map_right]
      ring
    refine ⟨?_, ?_, ?_⟩
    · rw [hv]
      simp only [toIndexRev]
      have hfm : (x + s * sumZip drest (revWeights rest)).fmod s = x := by
        rw [Int.fmod_eq_emod _ (le_of_lt hs), Int.add_mul_emod_self_left,
          Int.emod_eq_of_lt hx.1 hx.2]
      have hfd : (x + s * sumZip drest (revWeights rest)).fdiv s
          = sumZip drest (revWeights rest) := by
        rw [Int.fdiv_eq_ediv _ (le_of_lt hs),
          Int.add_mul_ediv_left x _ (ne_of_gt hs),
          Int.ediv_eq_zero_of_lt hx.1 hx.2, zero_add]
      rw [hfm, hfd, IH1]
    · rw [hv]
      have : 0 ≤ s * sumZip drest (revWeights rest) :=
        mul_nonneg (le_of_lt hs) IH2
      linarith [hx.1]
    · rw [hv, List.prod_cons]
      have h1 : sumZip drest (revWeights rest) + 1 ≤ rest.prod := IH3
      have h2 : s * (sumZip drest (revWeights rest) + 1) ≤ s * rest.prod :=
        mul_le_mul_of_nonneg_left h1 (le_of_lt hs)
      linarith [hx.2]

theorem to_index_length (o : Int) (shape : List Int) :
    (to_index o shape).length = shape.length := by
  unfold to_index
  rw [List.length_reverse, toIndexRev_length, List.length_reverse]

theorem dot_to_index (shape : List Int) (hpos : ∀ s ∈ shape, 0 < s) (o : Int)
    (h0 : 0 ≤ o) (h1 : o < shape.prod) :
    sumZip (to_index o shape) (strides_from_shape shape) = o := by
  have hlen : (to_index o shape).length = (strides_from_shape shape).length := by
    rw [to_index_length, strides_length]
  rw [← sumZip_reverse _ _ hlen]
  unfold to_index
  rw [List.reverse_reverse, strides_reverse]
  exact dot_toIndexRev shape.reverse
    (fun s hs => hpos s (List.mem_reverse.mp hs)) o h0 (by rwa [List.prod_reverse])

theorem to_index_bounds (shape : List Int) (hpos : ∀ s ∈ shape, 0 < s) (o : Int) :
    List.Forall₂ (fun d s => 0 ≤ d ∧ d < s) (to_index o shape) shape := by
  have h := toIndexRev_bounds shape.reverse
    (fun s hs => hpos s (List.mem_reverse.mp hs)) o
  have h2 := List.rel_reverse h
  rwa [List.reverse_reverse] at h2

theorem to_index_rightInv (shape c : List Int) (hpos : ∀ s ∈ shape, 0 < s)
    (hf : List.Forall₂ (fun x s => 0 ≤ x ∧ x < s) c shape) :
    to_index (sumZip c (strides_from_shape shape)) shape = c
    ∧ 0 ≤ sumZip c (strides_from_shape shape)
    ∧ sumZip c (strides_from_shape shape) < shape.prod := by
  have hfr := List.rel_reverse hf
  have hlen : c.length = shape.length := hf.length_eq
  obtain ⟨IH1, IH2, IH3⟩ := toIndexRev_rightInv shape.reverse c.reverse
    (fun s hs => hpos s (List.mem_reverse.mp hs)) hfr
  have hsum : sumZip c.reverse (revWeights shape.reverse)
      = sumZip c (strides_from_shape shape) := by
    rw [← strides_reverse]
    exact sumZip_reverse c (strides_from_shape shape) (by rw [hlen, strides_length])
  rw [hsum] at IH1 IH2 IH3
  refine ⟨?_, IH2, by rwa [List.prod_reverse] at IH3⟩
  unfold to_index
  rw [IH1, List.reverse_reverse]

theorem forall₂_bounds_getD (a b : List Int)
    (h : List.Forall₂ (fun d s => 0 ≤ d ∧ d < s) a b) :
    ∀ i < b.length, 0 ≤ a.getD i 0 ∧ a.getD i 0 < b.getD i 0 := by
  rw [List.forall₂_iff_get] at h
  intro i hi
  have h1 : i < a.length := h.1 ▸ hi
  rw [List.getD_eq_getElem _ _ h1, List.getD_eq_getElem _ _ hi]
  exact h.2 i h1 hi

theorem forall₂_bounds_of_getD (a b : List Int) (hlen : a.length = b.length)
    (h : ∀ i < b.length, 0 ≤ a.getD i 0 ∧ a.getD i 0 < b.getD i 0) :
    List.Forall₂ (fun d s => 0 ≤ d ∧ d < s) a b := by
  rw [List.forall₂_iff_get]
  refine ⟨hlen, fun i h1 h2 => ?_⟩
  have := h i h2
  rwa [List.getD_eq_getElem _ _ h1, List.getD_eq_getElem _ _ h2] at this

theorem to_index_concat (o : Int) (sh : List Int) (s : Int) :
    to_index o (sh ++ [s]) = to_index (o.fdiv s) sh ++ [o.fmod s] := by
  unfold to_index
  simp [List.reverse_append, toIndexRev]

/-- C1: for every shape with positive dimensions and every ordinal o in
[0, size), to_index fills out_index with an in-bounds coordinate; distinct
ordinals give distinct coordinates and every in-bounds coordinate is reached,
so the map is a bijection onto the valid coordinates; and the coordinate is
computed from last dimension to first by out[dim] = ordinal mod shape[dim]
followed by ordinal //= shape[dim] (final conjunct, stated as the defining
equation on appending a last dimension). -/
theorem to_index_bijection (shape : List Int) (o : Int)
    (hpos : ∀ s ∈ shape, 0 < s) (ho0 : 0 ≤ o) (ho : o < shape.prod) :
    (to_index o shape).length = shape.length
    ∧ (∀ i < shape.length,
        0 ≤ (to_index o shape).getD i 0
        ∧ (to_index o shape).getD i 0 < shape.getD i 0)
    ∧ (∀ o2 : Int, 0 ≤ o2 → o2 < shape.prod →
        to_index o2 shape = to_index o shape → o2 = o)
    ∧ (∀ c : List Int, c.length = shape.length →
        (∀ i < shape.length, 0 ≤ c.getD i 0 ∧ c.getD i 0 < shape.getD i 0) →
        ∃ o2 : Int, 0 ≤ o2 ∧ o2 < shape.prod ∧ to_index o2 shape = c)
    ∧ (∀ (o2 : Int) (sh : List Int) (s : Int),
        to_index o2 (sh ++ [s]) = to_index (o2.fdiv s) sh ++ [o2.fmod s]) := by
  refine ⟨to_index_length o shape,
    forall₂_bounds_getD _ _ (to_index_bounds shape hpos o),
    fun o2 h20 h2 heq => ?_,
    fun c hclen hcb => ?_,
    fun o2 sh s => to_index_concat o2 sh s⟩
  · have e1 := dot_to_index shape hpos o2 h20 h2
    have e2 := dot_to_index shape hpos o ho0 ho
    rw [← e1, ← e2, heq]
  · obtain ⟨h1, h2, h3⟩ := to_index_rightInv shape c hpos
      (forall₂_bounds_of_getD c shape hclen hcb)
    exact ⟨_, h2, h3, h1⟩

theorem to_index_bijection_witness :
    (∀ s ∈ ([2, 3] : List Int), 0 < s)
    ∧ ((0 : Int) ≤ 4 ∧ (4 : Int) < ([2, 3] : List Int).prod)
    ∧ ((to_index 4 [2, 3]).length = ([2, 3] : List Int).length
      ∧ (∀ i < ([2, 3] : List Int).length,
          0 ≤ (to_index 4 [2, 3]).getD i 0
          ∧ (to_index 4 [2, 3]).getD i 0 < ([2, 3] : List Int).getD i 0)
      ∧ (∀ o2 : Int, 0 ≤ o2 → o2 < ([2, 3] : List Int).prod →
          to_index o2 [2, 3] = to_index 4 [2, 3] → o2 = 4)
      ∧ (∀ c : List Int, c.length = ([2, 3] : List Int).length →
          (∀ i < ([2, 3] : List Int).length,
            0 ≤ c.getD i 0 ∧ c.getD i 0 < ([2, 3] : List Int).getD i 0) →
          ∃ o2 : Int, 0 ≤ o2 ∧ o2 < ([2, 3] : List Int).prod
            ∧ to_index o2 [2, 3] = c)
      ∧ (∀ (o2 : Int) (sh : List Int) (s : Int),
          to_index o2 (sh ++ [s]) = to_index (o2.fdiv s) sh ++ [o2.fmod s])) :=
  ⟨by decide, ⟨by decide, by decide⟩,
    to_index_bijection [2, 3] 4 (by decide) (by decide) (by decide)⟩

/-- C2: for a TensorData whose shape has all positive dimensions, mapping
index_to_position with the contiguous strides of strides_from_shape over the
coordinates enumerated by indices() yields exactly the positions
ok 0, ok 1, ..., ok (size-1) in order - in particular the set
{0, ..., size-1} with no repeated position, covering the buffer exactly
once. -/
theorem strides_cover (td : TensorData) (hpos : ∀ s ∈ td.shape, 0 < s) :
    td.indices.map (fun c => index_to_position (.vec c) (strides_from_shape td.shape))
      = (List.range td.size.toNat).map
          (fun (i : Nat) => (Except.ok (i : Int) : Except PyError Int)) := by
  unfold TensorData.indices
  rw [List.map_map]
  apply List.map_congr_left
  intro i hi
  have hi' : i < td.size.toNat := List.mem_range.mp hi
  unfold TensorData.size at hi'
  have hprod : 0 < td.shape.prod := List.prod_pos hpos
  have hcast : (i : Int) < td.shape.prod := by
    have h := Int.toNat_of_nonneg (le_of_lt hprod)
    omega
  show index_to_position (.vec (to_index (i : Int) td.shape))
      (strides_from_shape td.shape) = .ok (i : Int)
  have hne : ¬((to_index (i : Int) td.shape).length
      ≠ (strides_from_shape td.shape).length) := by
    rw [to_index_length, strides_length]
    exact fun h => h rfl
  simp only [index_to_position]
  rw [if_neg hne, dot_to_index td.shape hpos (i : Int) (Int.ofNat_nonneg i) hcast]

theorem strides_cover_witness :
    (∀ s ∈ (TensorData.mk [1.0, 2.0, 3.0, 4.0, 5.0, 6.0] [2, 3] [3, 1]).shape, 0 < s)
    ∧ (TensorData.mk [1.0, 2.0, 3.0, 4.0, 5.0, 6.0] [2, 3] [3, 1]).indices.map
        (fun c => index_to_position (.vec c)
          (strides_from_shape (TensorData.mk [1.0, 2.0, 3.0, 4.0, 5.0, 6.0] [2, 3] [3, 1]).shape))
      = (List.range (TensorData.mk [1.0, 2.0, 3.0, 4.0, 5.0, 6.0] [2, 3] [3, 1]).size.toNat).map
          (fun (i : Nat) => (Except.ok (i : Int) : Except PyError Int)) :=
  ⟨by decide, strides_cover (TensorData.mk [1.0, 2.0, 3.0, 4.0, 5.0, 6.0] [2, 3] [3, 1])
    (by decide)⟩

/-- C5 counterexample: on the incompatible call with big_shape (3,) and shape
(2,), broadcast_index raises ValueError, and for no message is the result an
IndexingError - refuting the claim that incompatible broadcast shapes fail
with an IndexingError. -/
theorem broadcast_index_not_indexingerror :
    broadcast_index [0] [3] [2] [0]
      = .error (.valueError (notCompatibleMsg [3] [2]))
    ∧ ∀ msg, broadcast_index [0] [3] [2] [0] ≠ .error (.indexingError msg) := by
  constructor
  · rfl
  · intro msg h
    have h2 := (show broadcast_index [0] [3] [2] [0]
        = (Except.error (PyError.valueError (notCompatibleMsg [3] [2]))
            : Except PyError (List Int)) from rfl).symm.trans h
    simp at h2

theorem insertAsc_perm (x : Nat) : ∀ l : List Nat, (insertAsc x l).Perm (x :: l)
  | [] => List.Perm.refl _
  | y :: ys => by
    unfold insertAsc
    split
    · exact List.Perm.refl _
    · exact ((insertAsc_perm x ys).cons y).trans (List.Perm.swap x y ys)

theorem sortAsc_perm : ∀ l : List Nat, (sortAsc l).Perm l
  | [] => List.Perm.refl _
  | x :: xs => (insertAsc_perm x (sortAsc xs)).trans ((sortAsc_perm xs).cons x)

theorem perm_range_of_sortAsc {p : List Nat} {n : Nat}
    (hp : sortAsc p = List.range n) : p.Perm (List.range n) := by
  have h := sortAsc_perm p
  rw [hp] at h
  exact h.symm

theorem getD_lt_of_perm_range {p : List Nat} {n : Nat}
    (hperm : p.Perm (List.range n)) {i : Nat} (hi : i < n) : p.getD i 0 < n := by
  have hlen : p.length = n := by simpa using hperm.length_eq
  have hmem : p.getD i 0 ∈ p := by
    rw [List.getD_eq_getElem _ _ (hlen ▸ hi)]
    exact List.getElem_mem _
  exact List.mem_range.mp (hperm.mem_iff.mp hmem)

theorem map_getD_range (l : List Int) :
    (List.range l.length).map (fun i => l.getD i 0) = l := by
  apply List.ext_getElem
  · simp
  · intro i h1 h2
    simp only [List.getElem_map, List.getElem_range]
    exact List.getD_eq_getElem l 0 h2

theorem map_range_getD (n : Nat) (f : Nat → Int) (j : Nat) (hj : j < n) :
    ((List.range n).map f).getD j 0 = f j := by
  rw [List.getD_eq_getElem _ _ (by simpa using hj)]
  simp

theorem permute_ok (td : TensorData) (p : List Nat)
    (h1 : td.strides.length = td.shape.length)
    (h2 : (td._storage.length : Int) = td.shape.prod)
    (hp : sortAsc p = List.range td.shape.length) :
    td.permute p = .ok ⟨td._storage,
      p.map (fun i => td.shape.getD i 0),
      p.map (fun i => td.strides.getD i 0)⟩ := by
  have hperm := perm_range_of_sortAsc hp
  unfold TensorData.permute
  rw [if_pos hp]
  by_cases hid : p = List.range td.shape.length
  · rw [if_pos hid]
    subst hid
    have e1 : (List.range td.shape.length).map (fun i => td.shape.getD i 0)
        = td.shape := map_getD_range td.shape
    have e2 : (List.range td.shape.length).map (fun i => td.strides.getD i 0)
        = td.strides := by
      rw [← h1]
      exact map_getD_range td.strides
    rw [e1, e2]
  · rw [if_neg hid]
    unfold TensorData.make
    have hmapperm : (p.map (fun i => td.shape.getD i 0)).Perm td.shape := by
      have h := hperm.map (fun i => td.shape.getD i 0)
      rwa [map_getD_range td.shape] at h
    have hprodeq : (p.map (fun i => td.shape.getD i 0)).prod = td.shape.prod :=
      hmapperm.prod_eq
    rw [if_neg (by simp), if_neg (by rw [hprodeq]; exact fun h => h h2)]

theorem indexBoundsCheck_ok (a s : List Int) : ∀ pairs : List (Int × Int),
    (∀ pr ∈ pairs, pr.1 < pr.2 ∧ 0 ≤ pr.1) →
    indexBoundsCheck a s pairs = .ok ()
  | [], _ => rfl
  | (ind, sh) :: rest, h => by
    obtain ⟨hlt, hnn⟩ := h (ind, sh) (by simp)
    unfold indexBoundsCheck
    rw [if_neg (not_le.mpr hlt), if_neg (not_lt.mpr hnn)]
    exact indexBoundsCheck_ok a s rest (fun pr hpr => h pr (List.mem_cons_of_mem _ hpr))

theorem indexBoundsCheck_ok_inv (a s : List Int) : ∀ pairs : List (Int × Int),
    indexBoundsCheck a s pairs = .ok () →
    ∀ pr ∈ pairs, pr.1 < pr.2 ∧ 0 ≤ pr.1
  | [], _, pr, hpr => by simp at hpr
  | (ind, sh) :: rest, h, pr, hpr => by
    unfold indexBoundsCheck at h
    by_cases hge : ind ≥ sh
    · rw [if_pos hge] at h
      exact absurd h (by simp)
    · rw [if_neg hge] at h
      by_cases hneg : ind < 0
      · rw [if_pos hneg] at h
        exact absurd h (by simp)
      · rw [if_neg hneg] at h
        rcases List.mem_cons.mp hpr with rfl | hpr'
        · exact ⟨not_le.mp hge, not_lt.mp hneg⟩
        · exact indexBoundsCheck_ok_inv a s rest h pr hpr'

theorem index_tuple_ok (td : TensorData) (c : List Int)
    (hlen : c.length = td.shape.length)
    (hslen : td.strides.length = td.shape.length)
    (hb : ∀ pr ∈ c.zip td.shape, pr.1 < pr.2 ∧ 0 ≤ pr.1) :
    td.index (.tuple c) = .ok (sumZip c td.strides) := by
  have hok := indexBoundsCheck_ok c td.shape (c.zip td.shape) hb
  have hne : ¬(c.length ≠ td.shape.length) := fun h => h hlen
  have hne2 : ¬(c.length ≠ td.strides.length) := fun h => h (hlen.trans hslen.symm)
  simp only [TensorData.index, aindexOf, npArray, if_neg hne, hok,
    index_to_position, if_neg hne2]

theorem index_tuple_ok_inv (td : TensorData) (c : List Int) (pos : Int)
    (h : td.index (.tuple c) = .ok pos) :
    c.length = td.shape.length
    ∧ (∀ pr ∈ c.zip td.shape, pr.1 < pr.2 ∧ 0 ≤ pr.1)
    ∧ pos = sumZip c td.strides := by
  unfold TensorData.index at h
  simp only [aindexOf, npArray] at h
  split at h
  · exact absurd h (by simp)
  next hlen' =>
    split at h
    next e heq => exact absurd h (by simp)
    next u heq =>
      simp only [index_to_position] at h
      split at h
      next => exact absurd h (by simp)
      next hl2 =>
        exact ⟨not_ne_iff.mp hlen', indexBoundsCheck_ok_inv _ _ _ heq,
          (Except.ok.inj h).symm⟩

theorem set_ok_inv (td : TensorData) (c : List Int) (v : Float) (td' : TensorData)
    (h : td.set c v = .ok td') :
    ∃ pos, td.index (.tuple c) = .ok pos
      ∧ 0 ≤ pos ∧ pos.toNat < td._storage.length
      ∧ td' = { td with _storage := td._storage.set pos.toNat v } := by
  unfold TensorData.set at h
  cases hidx : td.index (.tuple c) with
  | error e =>
    rw [hidx] at h
    exact absurd h (by simp [Except.bind])
  | ok pos =>
    rw [hidx] at h
    simp only [Except.bind] at h
    by_cases hb : 0 ≤ pos ∧ pos.toNat < td._storage.length
    · rw [if_pos hb] at h
      exact ⟨pos, rfl, hb.1, hb.2, (Except.ok.inj h).symm⟩
    · rw [if_neg hb] at h
      exact absurd h (by simp)

theorem get_eq (td : TensorData) (c : List Int) (pos : Int)
    (hidx : td.index (.tuple c) = .ok pos)
    (h0 : 0 ≤ pos) (h1 : pos.toNat < td._storage.length) :
    td.get c = .ok (td._storage.getD pos.toNat 0.0) := by
  unfold TensorData.get
  rw [hidx]
  simp only [Except.bind]
  unfold storageRead
  rw [if_pos ⟨h0, h1⟩]

theorem forall_zip_iff_getD (a b : List Int) (hlen : a.length = b.length) :
    (∀ pr ∈ a.zip b, pr.1 < pr.2 ∧ 0 ≤ pr.1)
    ↔ ∀ i < b.length, a.getD i 0 < b.getD i 0 ∧ 0 ≤ a.getD i 0 := by
  constructor
  · intro h i hi
    have hia : i < a.length := hlen ▸ hi
    have hmem : (a.get ⟨i, hia⟩, b.get ⟨i, hi⟩) ∈ a.zip b := by
      rw [List.mem_iff_getElem]
      refine ⟨i, by simp [List.length_zip]; omega, ?_⟩
      simp [List.getElem_zip]
    have h2 := h _ hmem
    rwa [List.getD_eq_getElem _ _ hia, List.getD_eq_getElem _ _ hi]
  · intro h pr hpr
    rw [List.mem_iff_getElem] at hpr
    obtain ⟨i, hi, rfl⟩ := hpr
    have hiz : i < a.length ∧ i < b.length := by
      simp [List.length_zip] at hi
      omega
    rw [List.getElem_zip]
    have h2 := h i hiz.2
    rwa [List.getD_eq_getElem _ _ hiz.1, List.getD_eq_getElem _ _ hiz.2] at h2

theorem sumZip_eq_sum : ∀ a b : List Int, a.length = b.length →
    sumZip a b = ∑ i ∈ Finset.range a.length, a.getD i 0 * b.getD i 0
  | [], [], _ => by simp [sumZip]
  | x :: as, y :: bs, h => by
    have h' : as.length = bs.length := by simpa using h
    rw [sumZip_cons, sumZip_eq_sum as bs h', List.length_cons,
      Finset.sum_range_succ']
    simp [add_comm]
  | [], _ :: _, h => by simp at h
  | _ :: _, [], h => by simp at h

theorem map_getD_getD (l : List Int) (p : List Nat) (k : Nat) (hk : k < p.length) :
    (p.map (fun i => l.getD i 0)).getD k 0 = l.getD (p.getD k 0) 0 := by
  rw [List.getD_eq_getElem _ 0 (by simpa using hk)]
  simp only [List.getElem_map]
  rw [List.getD_eq_getElem p 0 hk]

theorem perm_map_getD_inv (l : List Int) (p q : List Nat)
    (hpperm : p.Perm (List.range l.length))
    (hqperm : q.Perm (List.range l.length))
    (hpq : ∀ i < l.length, p.getD (q.getD i 0) 0 = i) :
    q.map (fun j => (p.map (fun i => l.getD i 0)).getD j 0) = l := by
  have hplen : p.length = l.length := by simpa using hpperm.length_eq
  have hqlen : q.length = l.length := by simpa using hqperm.length_eq
  apply List.ext_getElem
  · simp [hqlen]
  · intro i h1 h2
    have h1' : i < q.length := by simpa using h1
    simp only [List.getElem_map]
    rw [← List.getD_eq_getElem q 0 h1']
    rw [map_getD_getD l p (q.getD i 0)
      (by rw [hplen]; exact getD_lt_of_perm_range hqperm h2)]
    rw [hpq i h2]
    exact List.getD_eq_getElem l 0 h2

theorem sumZip_perm (c strides : List Int) (p q : List Nat) (n : Nat)
    (hclen : c.length = n) (hstrlen : strides.length = n)
    (hplen : p.length = n)
    (hpmem : ∀ i < n, p.getD i 0 < n) (hqmem : ∀ i < n, q.getD i 0 < n)
    (hpq : ∀ i < n, p.getD (q.getD i 0) 0 = i)
    (hqp : ∀ i < n, q.getD (p.getD i 0) 0 = i) :
    sumZip ((List.range n).map (fun j => c.getD (q.getD j 0) 0)) strides
      = sumZip c (p.map (fun i => strides.getD i 0)) := by
  rw [sumZip_eq_sum _ strides (by simp [hstrlen])]
  rw [sumZip_eq_sum c _ (by simp [hclen, hplen])]
  simp only [List.length_map, List.length_range]
  rw [hclen]
  rw [Finset.sum_congr rfl (fun j hj => by
    rw [map_range_getD _ _ j (Finset.mem_range.mp hj)])]
  rw [show (∑ i ∈ Finset.range n,
        c.getD i 0 * (p.map (fun i => strides.getD i 0)).getD i 0)
      = ∑ i ∈ Finset.range n, c.getD i 0 * strides.getD (p.getD i 0) 0 from
    Finset.sum_congr rfl (fun i hi => by
      rw [map_getD_getD strides p i (by rw [hplen]; exact Finset.mem_range.mp hi)])]
  refine Finset.sum_nbij' (fun j => q.getD j 0) (fun i => p.getD i 0) ?_ ?_ ?_ ?_ ?_
  · intro a ha
    exact Finset.mem_range.mpr (hqmem a (Finset.mem_range.mp ha))
  · intro a ha
    exact Finset.mem_range.mpr (hpmem a (Finset.mem_range.mp ha))
  · intro a ha
    exact hpq a (Finset.mem_range.mp ha)
  · intro a ha
    exact hqp a (Finset.mem_range.mp ha)
  · intro a ha
    rw [hpq a (Finset.mem_range.mp ha)]

/-- C6: permute with order p followed by permute with the inverse order q
restores the original shape and strides (round-trip law); the permuted view
holds the same storage buffer as the original (sharing, no copy); and a set
through the permuted view at a coordinate c is observed by get through the
original view at the corresponding coordinate (c reordered through q) over the
shared buffer. -/
theorem permute_roundtrip_shared (storage : List Float) (shape strides : List Int)
    (p q : List Nat)
    (hslen : strides.length = shape.length)
    (hstore : (storage.length : Int) = shape.prod)
    (hp : sortAsc p = List.range shape.length)
    (hq : sortAsc q = List.range shape.length)
    (hpq : ∀ i < shape.length, p.getD (q.getD i 0) 0 = i)
    (hqp : ∀ i < shape.length, q.getD (p.getD i 0) 0 = i) :
    ∃ t1 t2 : TensorData,
      (TensorData.mk storage shape strides).permute p = .ok t1
      ∧ t1.permute q = .ok t2
      ∧ t1._storage = storage
      ∧ t2.shape = shape ∧ t2.strides = strides ∧ t2._storage = storage
      ∧ ∀ (c : List Int) (v : Float) (t1' : TensorData),
          t1.set c v = .ok t1' →
          (TensorData.mk t1'._storage shape strides).get
            ((List.range shape.length).map (fun j => c.getD (q.getD j 0) 0))
            = .ok v := by
  have hpperm := perm_range_of_sortAsc hp
  have hqperm := perm_range_of_sortAsc hq
  have hplen : p.length = shape.length := by simpa using hpperm.length_eq
  have hqlen : q.length = shape.length := by simpa using hqperm.length_eq
  have hpmem : ∀ i < shape.length, p.getD i 0 < shape.length :=
    fun i hi => getD_lt_of_perm_range hpperm hi
  have hqmem : ∀ i < shape.length, q.getD i 0 < shape.length :=
    fun i hi => getD_lt_of_perm_range hqperm hi
  have hmapperm : (p.map (fun i => shape.getD i 0)).Perm shape := by
    have h := hpperm.map (fun i => shape.getD i 0)
    rwa [map_getD_range shape] at h
  have ht1 : (TensorData.mk storage shape strides).permute p
      = .ok ⟨storage, p.map (fun i => shape.getD i 0),
          p.map (fun i => strides.getD i 0)⟩ :=
    permute_ok ⟨storage, shape, strides⟩ p hslen hstore hp
  refine ⟨⟨storage, p.map (fun i => shape.getD i 0),
      p.map (fun i => strides.getD i 0)⟩,
    ⟨storage, q.map (fun j => (p.map (fun i => shape.getD i 0)).getD j 0),
      q.map (fun j => (p.map (fun i => strides.getD i 0)).getD j 0)⟩,
    ht1, ?_, rfl, ?_, ?_, rfl, ?_⟩
  · refine permute_ok _ q (by simp) ?_ (by simpa [hplen] using hq)
    show (storage.length : Int) = (p.map (fun i => shape.getD i 0)).prod
    rw [hmapperm.prod_eq]
    exact hstore
  · show q.map (fun j => (p.map (fun i => shape.getD i 0)).getD j 0) = shape
    exact perm_map_getD_inv shape p q hpperm hqperm hpq
  · show q.map (fun j => (p.map (fun i => strides.getD i 0)).getD j 0) = strides
    exact perm_map_getD_inv strides p q (hslen ▸ hpperm) (hslen ▸ hqperm)
      (hslen ▸ hpq)
  · intro c v t1' hset
    obtain ⟨pos, hidx, hpos0, hposlt, ht1'⟩ := set_ok_inv _ c v t1' hset
    obtain ⟨hclen, hcb, hposval⟩ := index_tuple_ok_inv _ c pos hidx
    simp only [List.length_map] at hclen
    have hclen' : c.length = shape.length := hclen.trans hplen
    have hcb' := (forall_zip_iff_getD c _ (by simpa using hclen)).mp hcb
    simp only [List.length_map, hplen] at hcb'
    have hstorelen : (storage.set pos.toNat v).length = storage.length :=
      List.length_set storage pos.toNat v
    have hposlt' : pos.toNat < storage.length := by simpa using hposlt
    have hc'bounds : ∀ i < shape.length,
        ((List.range shape.length).map (fun j => c.getD (q.getD j 0) 0)).getD i 0
          < shape.getD i 0
        ∧ 0 ≤ ((List.range shape.length).map (fun j => c.getD (q.getD j 0) 0)).getD i 0 := by
      intro i hi
      rw [map_range_getD _ _ i hi]
      have hk := hqmem i hi
      have hb := hcb' (q.getD i 0) hk
      rw [map_getD_getD shape p (q.getD i 0) (by rwa [hplen]), hpq i hi] at hb
      exact hb
    have hidx' : (TensorData.mk (storage.set pos.toNat v) shape strides).index
        (.tuple ((List.range shape.length).map (fun j => c.getD (q.getD j 0) 0)))
        = .ok pos := by
      have h := index_tuple_ok (TensorData.mk (storage.set pos.toNat v) shape strides)
        ((List.range shape.length).map (fun j => c.getD (q.getD j 0) 0))
        (by simp) hslen
        ((forall_zip_iff_getD _ _ (by simp)).mpr hc'bounds)
      rw [h]
      show Except.ok (sumZip _ strides) = Except.ok pos
      rw [sumZip_perm c strides p q shape.length hclen' hslen hplen
        hpmem hqmem hpq hqp]
      rw [← hposval]
    have hget := get_eq (TensorData.mk (storage.set pos.toNat v) shape strides)
      ((List.range shape.length).map (fun j => c.getD (q.getD j 0) 0)) pos hidx'
      hpos0 (by simpa [hstorelen] using hposlt')
    have hread : (storage.set pos.toNat v).getD pos.toNat 0.0 = v := by
      rw [List.getD_eq_getElem _ _ (by simpa [hstorelen] using hposlt')]
      exact List.getElem_set_self _
    have hstoreeq : t1'._storage = storage.set pos.toNat v := by
      rw [ht1']
    rw [hstoreeq]
    rw [hget, hread]

theorem permute_roundtrip_shared_witness :
    (([3, 1] : List Int).length = ([2, 3] : List Int).length
    ∧ ((([1.0, 2.0, 3.0, 4.0, 5.0, 6.0] : List Float).length : Int)
        = ([2, 3] : List Int).prod)
    ∧ sortAsc [1, 0] = List.range ([2, 3] : List Int).length
    ∧ (∀ i < ([2, 3] : List Int).length,
        ([1, 0] : List Nat).getD (([1, 0] : List Nat).getD i 0) 0 = i))
    ∧ ∃ t1 t2 : TensorData,
      (TensorData.mk [1.0, 2.0, 3.0, 4.0, 5.0, 6.0] [2, 3] [3, 1]).permute [1, 0]
          = .ok t1
      ∧ t1.permute [1, 0] = .ok t2
      ∧ t1._storage = [1.0, 2.0, 3.0, 4.0, 5.0, 6.0]
      ∧ t2.shape = [2, 3] ∧ t2.strides = [3, 1]
      ∧ t2._storage = [1.0, 2.0, 3.0, 4.0, 5.0, 6.0]
      ∧ ∀ (c : List Int) (v : Float) (t1' : TensorData),
          t1.set c v = .ok t1' →
          (TensorData.mk t1'._storage [2, 3] [3, 1]).get
            ((List.range ([2, 3] : List Int).length).map
              (fun j => c.getD (([1, 0] : List Nat).getD j 0) 0))
            = .ok v :=
  ⟨⟨by decide, by decide, by decide, by decide⟩,
    permute_roundtrip_shared [1.0, 2.0, 3.0, 4.0, 5.0, 6.0] [2, 3] [3, 1]
      [1, 0] [1, 0] (by decide) (by decide) (by decide) (by decide)
      (by decide) (by decide)⟩

end Minitorch
